import Mathlib

/-!
# solar-panel-monitoring-esp32: a verification development of `main/main.c`

The firmware joins a wireless network, samples two ADC channels every ten
seconds, converts the raw codes to millivolts and milliamps and reports them
in an HTTP POST.  This file embeds `main.c` in Lean:

* platform calls (`esp_efuse_mac_get_default`, `adc_oneshot_read`,
  `adc_cali_raw_to_voltage`, `esp_http_client_perform`, ...) are answered by
  an explicit environment and recorded in an action trace;
* `uint32_t` cells are naturals, written and read modulo `2 ^ 32`; `int`
  values are integers;
* `double` arithmetic is IEEE 754 binary64 with round-to-nearest-even, on
  exact integers (significand and binary exponent);
* C strings are lists of characters (the bytes in front of the terminator);
* diagnostics (`ESP_LOGx`) have no effect on the state and are left out.
-/

namespace SolarMonitor

/-! ## Machine integers -/

/-- The value of a 32-bit cell read as a two's complement `int`. -/
def asSigned32 (u : Nat) : Int :=
  if u % 2 ^ 32 < 2 ^ 31 then ((u % 2 ^ 32 : Nat) : Int) else ((u % 2 ^ 32 : Nat) : Int) - 2 ^ 32

/-- The conversion of an `int` to `uint32_t`: reduction modulo `2 ^ 32`. -/
def toUInt32 (i : Int) : Nat :=
  (i % 2 ^ 32).toNat

/-! ## binary64 arithmetic -/

/-- A finite binary64 value, `m * 2 ^ e`. -/
structure Double where
  m : Int
  e : Int
deriving DecidableEq, Repr

/-- Number of binary digits of `n`, by halving at most `fuel` times. -/
def bitLengthAux : Nat → Nat → Nat
  | 0, _ => 0
  | _ + 1, 0 => 0
  | fuel + 1, n + 1 => bitLengthAux fuel ((n + 1) / 2) + 1

/-- Number of binary digits of `n` (`0` for `0`). -/
def bitLength (n : Nat) : Nat :=
  bitLengthAux n n

/-- Rounding of `m * 2 ^ e` to a 53-bit significand, to nearest, ties to even.
The exponent range of binary64 is not limited here; `Double.isNormalOrZero`
tells whether a value is inside it, and `current_product_in_binary64_range`
shows that every value of the current conversion is. -/
def roundNearestEven53 (m : Int) (e : Int) : Double :=
  let n := m.natAbs
  let len := bitLength n
  if len ≤ 53 then ⟨m, e⟩
  else
    let s := len - 53
    let q := n / 2 ^ s
    let r := n % 2 ^ s
    let half := 2 ^ (s - 1)
    let q1 := if half < r ∨ (r = half ∧ q % 2 = 1) then q + 1 else q
    ⟨if m < 0 then -(q1 : Int) else (q1 : Int), e + (s : Int)⟩

/-- Whether a value is zero or has its leading bit between `2 ^ (-1022)` and
`2 ^ 1023`, the range in which binary64 keeps 53 significant bits. -/
def Double.isNormalOrZero (d : Double) : Bool :=
  d.m == 0 ||
    (decide (-1022 ≤ (bitLength d.m.natAbs : Int) - 1 + d.e) &&
      decide ((bitLength d.m.natAbs : Int) - 1 + d.e ≤ 1023))

/-- The binary64 value nearest to the fraction `n / d` (`d` positive), as the
compiler computes it for a decimal literal.  The quotient is taken with more
than 64 bits and a sticky bit, so the single rounding is exact. -/
def Double.ofRatio (n d : Nat) : Double :=
  let sh := bitLength d + 64
  let num := n * 2 ^ sh
  let q := num / d
  let sticky := if num % d = 0 then 0 else 1
  roundNearestEven53 ((2 * q + sticky : Nat) : Int) (-((sh : Int) + 1))

/-- Conversion of an `int` to `double`. -/
def Double.ofInt (i : Int) : Double :=
  roundNearestEven53 i 0

/-- Product of two `double` values. -/
def Double.mul (a b : Double) : Double :=
  roundNearestEven53 (a.m * b.m) (a.e + b.e)

/-- The integral part of a `double`, fraction discarded (toward zero). -/
def Double.trunc (d : Double) : Int :=
  if 0 ≤ d.e then d.m * 2 ^ d.e.toNat else Int.tdiv d.m (2 ^ (-d.e).toNat)

/-- The cast `(int)d`: the integral part; outside the range of `int` the cast
is undefined in C and the model keeps the low 32 bits. -/
def Double.toInt (d : Double) : Int :=
  asSigned32 (toUInt32 d.trunc)

/-! ## `read_adc_values`: the current conversion (lines 193-195) -/

/-- Line 193: `static const uint16_t current_sensor_zero_offset = 112;` -/
def current_sensor_zero_offset : Nat := 112

/-- Line 194: `static const double k = 0.04028320312;` -/
def k : Double := Double.ofRatio 4028320312 (10 ^ 11)

/-- Line 195, right-hand side before the cast:
`(raw_current - current_sensor_zero_offset) * k * 1000`.  The difference is
an `int` (the `uint16_t` is promoted), converted to `double` for the first
product; the literal `1000` is converted for the second. -/
def current_product (raw_current : Int) : Double :=
  Double.mul (Double.mul (Double.ofInt (raw_current - (current_sensor_zero_offset : Int))) k)
    (Double.ofInt 1000)

/-- Line 195: `ma = (int)(...)`, the `int` stored in the `uint32_t ma`. -/
def compute_ma (raw_current : Int) : Nat :=
  toUInt32 (Double.toInt (current_product raw_current))

/-- The rational number a `Double` stands for. -/
def Double.toRat (d : Double) : ℚ :=
  (d.m : ℚ) * (2 : ℚ) ^ d.e

/-- Truncation of a rational toward zero, the `truncateTowardZero` of the
specification. -/
def truncateTowardZero (q : ℚ) : Int :=
  if 0 ≤ q then ⌊q⌋ else ⌈q⌉

/-! ## Platform types and constants -/

/-- Result codes of the platform calls, as far as `main.c` tells them apart:
success, `ESP_ERR_NOT_SUPPORTED`, and any other error. -/
inductive esp_err_t where
  | ESP_OK
  | ESP_ERR_NOT_SUPPORTED
  | ESP_FAIL
deriving DecidableEq, Repr

/-- The two event bases `wifi_event_handler` is registered for. -/
inductive esp_event_base_t where
  | WIFI_EVENT
  | IP_EVENT
deriving DecidableEq, Repr

/-- The event identifiers that `wifi_event_handler` compares `event_id` with.
They are enumerators of the platform headers; `main.c` does not give their
values, and nothing proved here depends on them. -/
structure EventIds where
  WIFI_EVENT_STA_START : Int
  WIFI_EVENT_STA_DISCONNECTED : Int
  IP_EVENT_STA_GOT_IP : Int
deriving DecidableEq, Repr

/-- The identifiers as ESP-IDF numbers them (`esp_wifi_types.h`,
`esp_netif_types.h`), for concrete runs. -/
def espIdfEventIds : EventIds :=
  { WIFI_EVENT_STA_START := 2, WIFI_EVENT_STA_DISCONNECTED := 5, IP_EVENT_STA_GOT_IP := 0 }

/-- The macro `BIT0` of the platform headers: bit number zero. -/
def BIT0 : Nat := 1

/-- Line 19: `#define WIFI_CONNECTED_BIT BIT0`. -/
def WIFI_CONNECTED_BIT : Nat := BIT0

/-- Lines 21-22: the two ADC channels. -/
inductive AdcChannel where
  | VOLTAGE_SENSOR_ADC_CHANNEL
  | CURRENT_SENSOR_ADC_CHANNEL
deriving DecidableEq, Repr

/-- The array `uint8_t mac[6]`. -/
structure MacBytes where
  b0 : Nat
  b1 : Nat
  b2 : Nat
  b3 : Nat
  b4 : Nat
  b5 : Nat
deriving DecidableEq, Repr

/-- Every element is a value of `uint8_t`. -/
def MacBytes.valid (m : MacBytes) : Prop :=
  m.b0 < 256 ∧ m.b1 < 256 ∧ m.b2 < 256 ∧ m.b3 < 256 ∧ m.b4 < 256 ∧ m.b5 < 256

/-- The calls to the platform that `main.c` makes and that the claims observe. -/
inductive Action where
  | esp_wifi_start
  | esp_wifi_connect
  | xEventGroupSetBits (bits : Nat)
  | adc_oneshot_read (chan : AdcChannel)
  | adc_cali_raw_to_voltage (raw : Int)
  | esp_http_client_perform (post_data : List Char) (len : Nat) (err : esp_err_t)
  | vTaskDelay_ms (ms : Nat)
  | abort
deriving DecidableEq, Repr

/-- The file-scope variables of `main.c` (lines 29-33) and the calibration
handle `adc_cali_handle` that lines 169 and 191 use. -/
structure Globals where
  /-- The string in `char mac_str[18]`. -/
  mac_str : List Char
  /-- The bits of `s_wifi_event_group`; `none` before `xEventGroupCreate`. -/
  s_wifi_event_group : Option Nat
  /-- Whether `calibrate_adc` has stored a scheme in `adc_cali_handle`. -/
  adc_cali_ready : Bool
  /-- The cell `uint32_t mv`. -/
  mv : Nat
  /-- The cell `uint32_t ma`. -/
  ma : Nat
deriving DecidableEq, Repr

/-- The variables at program start: statics are zero. -/
def Globals.init : Globals :=
  { mac_str := [], s_wifi_event_group := none, adc_cali_ready := false, mv := 0, ma := 0 }

/-! ## `printf` formatting -/

/-- The sixteen uppercase hexadecimal digits, in order of value. -/
def hexDigitsUpper : List Char :=
  "0123456789ABCDEF".toList

/-- An uppercase hexadecimal digit, by value. -/
def hexDigitUpper (d : Nat) : Char :=
  hexDigitsUpper.getD d 'F'

/-- The uppercase hexadecimal digits of `n`, most significant first, in front
of `acc`. -/
def hexDigitsAux : Nat → Nat → List Char → List Char
  | 0, _, acc => acc
  | fuel + 1, n, acc =>
    if n < 16 then hexDigitUpper n :: acc
    else hexDigitsAux fuel (n / 16) (hexDigitUpper (n % 16) :: acc)

/-- The conversion `%02X`: uppercase hexadecimal, padded with zeros to two
places. -/
def fmt_02X (v : Nat) : List Char :=
  let ds := hexDigitsAux (v + 1) v []
  List.replicate (2 - ds.length) '0' ++ ds

/-- The conversion `%d` applied to a 32-bit argument: the argument read as an
`int`, in decimal with a minus sign when negative. -/
def fmt_d (arg : Nat) : List Char :=
  (Int.repr (asSigned32 arg)).toList

/-- The string `snprintf(buf, size, ...)` leaves in `buf`: the formatted text
cut to `size - 1` characters (the last byte holds the terminator). -/
def snprintf (size : Nat) (formatted : List Char) : List Char :=
  formatted.take (size - 1)

/-! ## `get_mac_address` and the start of `app_main` (lines 48-49, 81-93) -/

/-- Line 92, the text for the format
`"%02X:%02X:%02X:%02X:%02X:%02X"`. -/
def mac_format (mac : MacBytes) : List Char :=
  fmt_02X (mac.b0 % 256) ++ ':' :: fmt_02X (mac.b1 % 256) ++ ':' :: fmt_02X (mac.b2 % 256) ++
    ':' :: fmt_02X (mac.b3 % 256) ++ ':' :: fmt_02X (mac.b4 % 256) ++ ':' :: fmt_02X (mac.b5 % 256)

/-- Lines 81-93.  `efuse` is the answer of `esp_efuse_mac_get_default(mac)`:
`some hw` for `ESP_OK` with the six bytes `hw` written to `mac`, `none` for an
error that writes nothing.  Both branches only log; line 92 formats `mac`
whatever the answer was.  Returns `mac` and `mac_str`. -/
def get_mac_address (efuse : Option MacBytes) (mac : MacBytes) : MacBytes × List Char :=
  let mac1 := match efuse with
    | some hw => hw
    | none => mac
  (mac1, snprintf 18 (mac_format mac1))

/-- Lines 48-49: `uint8_t mac[6] = { 0 }; get_mac_address(mac, mac_str);`. -/
def app_main_identity (efuse : Option MacBytes) (g : Globals) : Globals :=
  { g with mac_str := (get_mac_address efuse ⟨0, 0, 0, 0, 0, 0⟩).2 }

/-! ## Wi-Fi (lines 58-68, 95-145) -/

/-- Lines 95-106.  Setting bits in an event group that has not been created
does not occur: the handler is registered after `xEventGroupCreate`. -/
def wifi_event_handler (ids : EventIds) (event_base : esp_event_base_t) (event_id : Int)
    (g : Globals) : Globals × List Action :=
  if event_base = esp_event_base_t.WIFI_EVENT ∧ event_id = ids.WIFI_EVENT_STA_START then
    (g, [Action.esp_wifi_connect])
  else if event_base = esp_event_base_t.WIFI_EVENT ∧
      event_id = ids.WIFI_EVENT_STA_DISCONNECTED then
    (g, [Action.esp_wifi_connect])
  else if event_base = esp_event_base_t.IP_EVENT ∧ event_id = ids.IP_EVENT_STA_GOT_IP then
    ({ g with
        s_wifi_event_group :=
          g.s_wifi_event_group.map (fun bits => bits ||| WIFI_CONNECTED_BIT) },
      [Action.xEventGroupSetBits WIFI_CONNECTED_BIT])
  else (g, [])

/-- Lines 108-145: the event group is created with all bits clear, the
handler is registered and the interface is started. -/
def wifi_init_sta (g : Globals) : Globals × List Action :=
  ({ g with s_wifi_event_group := some 0 }, [Action.esp_wifi_start])

/-- Lines 58-62: whether `xEventGroupWaitBits(s_wifi_event_group,
WIFI_CONNECTED_BIT, pdFALSE, pdTRUE, portMAX_DELAY)` returns instead of
blocking: the bit is set.  The call does not clear it. -/
def wait_returns (g : Globals) : Bool :=
  match g.s_wifi_event_group with
  | some bits => bits &&& WIFI_CONNECTED_BIT == WIFI_CONNECTED_BIT
  | none => false

/-- The connection states of the specification. -/
inductive ConnectionState where
  | Idle
  | Connecting
  | Connected
  | Disconnected
deriving DecidableEq, Repr

/-- The connection state the variables of `main.c` stand for: `Idle` before
`wifi_init_sta`, `Connected` once `WIFI_CONNECTED_BIT` is set, `Connecting`
in between.  Nothing in `main.c` stands for `Disconnected`. -/
def connectionState (g : Globals) : ConnectionState :=
  match g.s_wifi_event_group with
  | none => ConnectionState.Idle
  | some bits =>
    if bits &&& WIFI_CONNECTED_BIT = WIFI_CONNECTED_BIT then ConnectionState.Connected
    else ConnectionState.Connecting

/-- The events of the specification's connectivity state machine. -/
inductive ConnEvent where
  | start
  | linkStarted
  | linkLost
  | addressAcquired
deriving DecidableEq, Repr

/-- What `main.c` runs for one event: `wifi_init_sta` for `start`, the
handler with the platform's event otherwise. -/
def handleEvent (ids : EventIds) (ev : ConnEvent) (g : Globals) : Globals × List Action :=
  match ev with
  | ConnEvent.start => wifi_init_sta g
  | ConnEvent.linkStarted =>
    wifi_event_handler ids esp_event_base_t.WIFI_EVENT ids.WIFI_EVENT_STA_START g
  | ConnEvent.linkLost =>
    wifi_event_handler ids esp_event_base_t.WIFI_EVENT ids.WIFI_EVENT_STA_DISCONNECTED g
  | ConnEvent.addressAcquired =>
    wifi_event_handler ids esp_event_base_t.IP_EVENT ids.IP_EVENT_STA_GOT_IP g

/-- A sequence of events, handled in order; the actions are collected. -/
def handleEvents (ids : EventIds) : List ConnEvent → Globals → Globals × List Action
  | [], g => (g, [])
  | ev :: evs, g =>
    let r := handleEvent ids ev g
    let rs := handleEvents ids evs r.1
    (rs.1, r.2 ++ rs.2)

/-! ## ADC (lines 162-198) -/

/-- Lines 162-179.  `ret` is the answer of
`adc_cali_create_scheme_line_fitting`; the scheme is stored in
`adc_cali_handle` on success.  No line of `main.c` calls this function. -/
def calibrate_adc (ret : esp_err_t) (g : Globals) : Bool × Globals :=
  if ret = esp_err_t.ESP_OK then (true, { g with adc_cali_ready := true })
  else if ret = esp_err_t.ESP_ERR_NOT_SUPPORTED then (false, g)
  else (false, g)

/-- The answers of the platform during one cycle of `post_task`. -/
structure CycleEnv where
  /-- `adc_oneshot_read` on the voltage channel: `some raw` for `ESP_OK`. -/
  voltage_read : Option Int
  /-- `adc_oneshot_read` on the current channel: `some raw` for `ESP_OK`. -/
  current_read : Option Int
  /-- `adc_cali_raw_to_voltage`: `some v` when it writes the voltage `v`,
  `none` when it fails and writes nothing. -/
  cali_voltage : Option Int
  /-- `esp_http_client_perform`. -/
  post_err : esp_err_t
deriving DecidableEq, Repr

/-- Lines 181-198.  `ESP_ERROR_CHECK` aborts the program when a read fails:
the result is then `none`. -/
def read_adc_values (env : CycleEnv) (g : Globals) : Option Globals × List Action :=
  match env.voltage_read with
  | none => (none, [Action.adc_oneshot_read AdcChannel.VOLTAGE_SENSOR_ADC_CHANNEL, Action.abort])
  | some raw_voltage =>
    match env.current_read with
    | none =>
      (none, [Action.adc_oneshot_read AdcChannel.VOLTAGE_SENSOR_ADC_CHANNEL,
        Action.adc_oneshot_read AdcChannel.CURRENT_SENSOR_ADC_CHANNEL, Action.abort])
    | some raw_current =>
      let mv1 := match env.cali_voltage with
        | some v => toUInt32 v
        | none => g.mv
      (some { g with mv := mv1, ma := compute_ma raw_current },
        [Action.adc_oneshot_read AdcChannel.VOLTAGE_SENSOR_ADC_CHANNEL,
          Action.adc_oneshot_read AdcChannel.CURRENT_SENSOR_ADC_CHANNEL,
          Action.adc_cali_raw_to_voltage raw_voltage])

/-! ## HTTP POST (lines 231-265) -/

/-- Line 239, the text for the format `"\x7b\"mac\":\"%s\",\"mv\":%d,\"ma\":%d\x7d"`. -/
def post_format (g : Globals) : List Char :=
  "\x7b\"mac\":\"".toList ++ g.mac_str ++ "\",\"mv\":".toList ++ fmt_d g.mv ++
    ",\"ma\":".toList ++ fmt_d g.ma ++ "\x7d".toList

/-- Lines 238-239: the string in `char post_data[128]`. -/
def post_data (g : Globals) : List Char :=
  snprintf 128 (post_format g)

/-- Lines 231-255: one request with the body `post_data` and the length
`strlen(post_data)`; its result is only logged. -/
def send_post_request (env : CycleEnv) (g : Globals) : List Action :=
  [Action.esp_http_client_perform (post_data g) (post_data g).length env.post_err]

/-- Lines 257-265, for as many cycles as `envs` has answers. -/
def post_task : List CycleEnv → Globals → List Action
  | [], _ => []
  | env :: envs, g =>
    match read_adc_values env g with
    | (none, trace) => trace
    | (some g1, trace) =>
      trace ++ send_post_request env g1 ++ Action.vTaskDelay_ms 10000 :: post_task envs g1

/-! ## Vocabulary of the claims -/

/-- The kind of an action, without its arguments. -/
inductive Step where
  | startWifi
  | connect
  | setBits
  | readVoltage
  | readCurrent
  | convert
  | post
  | sleep (ms : Nat)
  | abort
deriving DecidableEq, Repr

/-- The kind of an action. -/
def Action.step : Action → Step
  | Action.esp_wifi_start => Step.startWifi
  | Action.esp_wifi_connect => Step.connect
  | Action.xEventGroupSetBits _ => Step.setBits
  | Action.adc_oneshot_read AdcChannel.VOLTAGE_SENSOR_ADC_CHANNEL => Step.readVoltage
  | Action.adc_oneshot_read AdcChannel.CURRENT_SENSOR_ADC_CHANNEL => Step.readCurrent
  | Action.adc_cali_raw_to_voltage _ => Step.convert
  | Action.esp_http_client_perform _ _ _ => Step.post
  | Action.vTaskDelay_ms ms => Step.sleep ms
  | Action.abort => Step.abort

/-- Both raw reads of a cycle succeed. -/
def CycleEnv.readsSucceed (env : CycleEnv) : Prop :=
  env.voltage_read.isSome = true ∧ env.current_read.isSome = true

/-- The value of an uppercase hexadecimal digit: its place among the
sixteen digits. -/
def hexValue (c : Char) : Option Nat :=
  if c ∈ hexDigitsUpper then some (hexDigitsUpper.indexOf c) else none

/-- The byte written as two hexadecimal digits. -/
def parse_byte (hi lo : Char) : Option Nat :=
  match hexValue hi, hexValue lo with
  | some h, some l => some (16 * h + l)
  | _, _ => none

/-- Reading a colon-separated address back: six two-digit groups. -/
def parse_mac : List Char → Option MacBytes
  | [a0, a1, s0, b0, b1, s1, c0, c1, s2, d0, d1, s3, e0, e1, s4, f0, f1] =>
    if s0 = ':' ∧ s1 = ':' ∧ s2 = ':' ∧ s3 = ':' ∧ s4 = ':' then
      match parse_byte a0 a1, parse_byte b0 b1, parse_byte c0 c1, parse_byte d0 d1,
        parse_byte e0 e1, parse_byte f0 f1 with
      | some a, some b, some c, some d, some e, some f => some ⟨a, b, c, d, e, f⟩
      | _, _, _, _, _, _ => none
    else none
  | _ => none

/-- The canonical form of an address: each byte as two uppercase hexadecimal
digits, high digit first, joined by colons. -/
def canonical_mac (m : MacBytes) : List Char :=
  (String.intercalate ":"
    ([m.b0, m.b1, m.b2, m.b3, m.b4, m.b5].map
      (fun b => String.mk [hexDigitUpper (b / 16), hexDigitUpper (b % 16)]))).toList

/-- The steps of one completed cycle of `post_task`. -/
def cycleSteps : List Step :=
  [Step.readVoltage, Step.readCurrent, Step.convert, Step.post, Step.sleep 10000]

/-- The steps of `n` completed cycles, one after the other. -/
def repeatedCycles : Nat → List Step
  | 0 => []
  | n + 1 => cycleSteps ++ repeatedCycles n

/-- The steps of a cycle whose raw read fails: the reads up to the failing
one, then the abort of `ESP_ERROR_CHECK`. -/
def failedCycleSteps (env : CycleEnv) : List Step :=
  match env.voltage_read with
  | none => [Step.readVoltage, Step.abort]
  | some _ => [Step.readVoltage, Step.readCurrent, Step.abort]

/-! ## binary64 lemmas -/

theorem bitLengthAux_zero (fuel : Nat) : bitLengthAux fuel 0 = 0 := by
  cases fuel <;> rfl

/-- With enough fuel the count `l` of binary digits satisfies
`2 ^ (l - 1) ≤ n < 2 ^ l`. -/
theorem bitLengthAux_spec : ∀ (fuel n : Nat), n ≤ fuel →
    n < 2 ^ bitLengthAux fuel n ∧ (n ≠ 0 → 2 ^ (bitLengthAux fuel n - 1) ≤ n) := by
  intro fuel
  induction fuel with
  | zero =>
    intro n hn
    have h0 : n = 0 := by omega
    subst h0
    simp [bitLengthAux]
  | succ fuel ih =>
    intro n hn
    cases n with
    | zero => simp [bitLengthAux]
    | succ k =>
      have hle : (k + 1) / 2 ≤ fuel := by omega
      obtain ⟨h1, h2⟩ := ih ((k + 1) / 2) hle
      simp only [bitLengthAux, Nat.add_sub_cancel]
      refine ⟨by rw [pow_succ]; omega, fun _ => ?_⟩
      by_cases hz : (k + 1) / 2 = 0
      · rw [hz, bitLengthAux_zero]
        simp
      · have h3 := h2 hz
        have hpos : bitLengthAux fuel ((k + 1) / 2) ≠ 0 := by
          intro h0
          rw [h0] at h1
          simp at h1
          exact hz h1
        obtain ⟨l, hl⟩ := Nat.exists_eq_succ_of_ne_zero hpos
        rw [hl] at h3 ⊢
        simp only [Nat.succ_eq_add_one, Nat.add_sub_cancel] at h3
        rw [Nat.succ_eq_add_one, pow_succ]
        omega

theorem bitLength_lt (n : Nat) : n < 2 ^ bitLength n :=
  (bitLengthAux_spec n n (Nat.le_refl n)).1

theorem bitLength_le (n : Nat) (h : n ≠ 0) : 2 ^ (bitLength n - 1) ≤ n :=
  (bitLengthAux_spec n n (Nat.le_refl n)).2 h

theorem bitLength_le_of_lt (n l : Nat) (h : n < 2 ^ l) : bitLength n ≤ l := by
  by_cases hn : n = 0
  · subst hn
    simp [bitLength, bitLengthAux_zero]
  · by_contra hl
    have h1 := bitLength_le n hn
    have h2 : 2 ^ l ≤ 2 ^ (bitLength n - 1) := Nat.pow_le_pow_right (by norm_num) (by omega)
    omega

/-- Dropping `s` low bits of a magnitude of `53 + s` bits, to nearest even,
moves it by at most `n / 2 ^ 53`. -/
theorem round_magnitude_error (n s : Nat) (hs : 1 ≤ s) (hn : 2 ^ (52 + s) ≤ n) :
    abs ((((if 2 ^ (s - 1) < n % 2 ^ s ∨ (n % 2 ^ s = 2 ^ (s - 1) ∧ n / 2 ^ s % 2 = 1)
        then n / 2 ^ s + 1 else n / 2 ^ s : Nat) : ℚ)) * ((2 ^ s : Nat) : ℚ) - (n : ℚ))
      ≤ (n : ℚ) / 2 ^ 53 := by
  obtain ⟨t, rfl⟩ : ∃ t, s = t + 1 := ⟨s - 1, by omega⟩
  simp only [Nat.add_sub_cancel]
  have hdm := Nat.div_add_mod n (2 ^ (t + 1))
  have hr := Nat.mod_lt n (show 0 < 2 ^ (t + 1) by positivity)
  have hpow : (2 : ℕ) ^ (52 + (t + 1)) = 2 ^ 53 * 2 ^ t := by
    rw [← pow_add]
    congr 1
    omega
  have hpow2 : (2 : ℕ) ^ (t + 1) = 2 * 2 ^ t := by
    rw [pow_succ]
    ring
  rw [hpow] at hn
  rw [hpow2] at hdm hr ⊢
  generalize n / (2 * 2 ^ t) = q at *
  generalize n % (2 * 2 ^ t) = r at *
  generalize (2 : ℕ) ^ t = A at *
  have hdmQ : (2 * (A : ℚ)) * q + r = n := by exact_mod_cast hdm
  have hrQ : (r : ℚ) < 2 * A := by exact_mod_cast hr
  have hnQ : (2 : ℚ) ^ 53 * A ≤ n := by exact_mod_cast hn
  have hA : (A : ℚ) ≤ (n : ℚ) / 2 ^ 53 := by
    rw [le_div_iff₀ (by positivity)]
    linarith
  have hr0 : (0 : ℚ) ≤ r := Nat.cast_nonneg r
  rw [abs_le]
  split_ifs with h
  · have hrA : (A : ℚ) ≤ r := by
      rcases h with h | ⟨h, _⟩
      · exact_mod_cast h.le
      · exact_mod_cast h.ge
    push_cast
    constructor <;> nlinarith
  · have hrA : (r : ℚ) ≤ A := by
      have : r ≤ A := by
        by_contra hc
        exact h (Or.inl (by omega))
      exact_mod_cast this
    push_cast
    constructor <;> nlinarith

/-- A significand of at most 53 bits is kept as it is. -/
theorem roundNearestEven53_exact (m e : Int) (h : m.natAbs < 2 ^ 53) :
    roundNearestEven53 m e = ⟨m, e⟩ := by
  unfold roundNearestEven53
  simp only []
  rw [if_pos (bitLength_le_of_lt _ _ h)]

/-- The relative error of one rounding is at most `2 ^ (-53)`. -/
theorem roundNearestEven53_error (m e : Int) :
    |(roundNearestEven53 m e).toRat - (m : ℚ) * (2 : ℚ) ^ e|
      ≤ |(m : ℚ)| * (2 : ℚ) ^ e / 2 ^ 53 := by
  have hP : (0 : ℚ) < (2 : ℚ) ^ e := by positivity
  unfold roundNearestEven53
  simp only []
  by_cases hlen : bitLength m.natAbs ≤ 53
  · rw [if_pos hlen]
    simp only [Double.toRat, sub_self, abs_zero]
    positivity
  · rw [if_neg hlen]
    have hlen1 : 53 < bitLength m.natAbs := by omega
    have hn0 : m.natAbs ≠ 0 := by
      intro h0
      rw [h0] at hlen1
      simp [bitLength, bitLengthAux_zero] at hlen1
    have hlow := bitLength_le m.natAbs hn0
    have hexp : bitLength m.natAbs - 1 = 52 + (bitLength m.natAbs - 53) := by omega
    rw [hexp] at hlow
    have key := round_magnitude_error m.natAbs (bitLength m.natAbs - 53) (by omega) hlow
    generalize bitLength m.natAbs - 53 = s at *
    simp only [Double.toRat]
    rw [zpow_add₀ (by norm_num : (2 : ℚ) ≠ 0), zpow_natCast]
    have hcast : (((2 ^ s : Nat) : ℚ)) = (2 : ℚ) ^ s := by push_cast; rfl
    rw [hcast] at key
    generalize hq1 : (if 2 ^ (s - 1) < m.natAbs % 2 ^ s ∨
        (m.natAbs % 2 ^ s = 2 ^ (s - 1) ∧ m.natAbs / 2 ^ s % 2 = 1)
        then m.natAbs / 2 ^ s + 1 else m.natAbs / 2 ^ s) = q1 at *
    generalize hN : m.natAbs = N at *
    have hfin : abs ((q1 : ℚ) * (2 : ℚ) ^ s - (N : ℚ)) * (2 : ℚ) ^ e
        ≤ (N : ℚ) * (2 : ℚ) ^ e / 2 ^ 53 := by
      have h := mul_le_mul_of_nonneg_right key hP.le
      rwa [div_mul_eq_mul_div] at h
    by_cases hneg : m < 0
    · rw [if_pos hneg]
      have hm : m = -(N : Int) := by omega
      have hmQ : (m : ℚ) = -(N : ℚ) := by
        rw [hm]
        push_cast
        rfl
      rw [hmQ, abs_neg, Nat.abs_cast]
      push_cast
      have e1 : -(q1 : ℚ) * ((2 : ℚ) ^ e * (2 : ℚ) ^ s) - -(N : ℚ) * (2 : ℚ) ^ e
          = -(((q1 : ℚ) * (2 : ℚ) ^ s - (N : ℚ)) * (2 : ℚ) ^ e) := by ring
      rw [e1, abs_neg, abs_mul, abs_of_pos hP]
      exact hfin
    · rw [if_neg hneg]
      have hm : m = (N : Int) := by omega
      have hmQ : (m : ℚ) = (N : ℚ) := by
        rw [hm]
        push_cast
        rfl
      rw [hmQ, Nat.abs_cast]
      push_cast
      have e1 : (q1 : ℚ) * ((2 : ℚ) ^ e * (2 : ℚ) ^ s) - (N : ℚ) * (2 : ℚ) ^ e
          = (((q1 : ℚ) * (2 : ℚ) ^ s - (N : ℚ)) * (2 : ℚ) ^ e) := by ring
      rw [e1, abs_mul, abs_of_pos hP]
      exact hfin

theorem lt_bitLength_of_le (n l : Nat) (h : 2 ^ l ≤ n) : l < bitLength n := by
  have h2 : 2 ^ l < 2 ^ bitLength n := lt_of_le_of_lt h (bitLength_lt n)
  exact (Nat.pow_lt_pow_iff_right (by norm_num)).mp h2

theorem bitLength_mul_le (a b : Nat) : bitLength (a * b) ≤ bitLength a + bitLength b := by
  apply bitLength_le_of_lt
  rw [pow_add]
  exact Nat.mul_lt_mul'' (bitLength_lt a) (bitLength_lt b)

/-- Rounding does not lower the exponent and raises the leading bit by at
most one place. -/
theorem roundNearestEven53_range (m e : Int) :
    e ≤ (roundNearestEven53 m e).e ∧
    (bitLength (roundNearestEven53 m e).m.natAbs : Int) + (roundNearestEven53 m e).e
      ≤ e + (bitLength m.natAbs : Int) + 1 := by
  unfold roundNearestEven53
  simp only []
  by_cases hlen : bitLength m.natAbs ≤ 53
  · rw [if_pos hlen]
    constructor <;> simp only [] <;> omega
  · rw [if_neg hlen]
    have hn0 : m.natAbs ≠ 0 := by
      intro h0
      rw [h0] at hlen
      simp [bitLength, bitLengthAux_zero] at hlen
    have hlow := bitLength_le m.natAbs hn0
    have hupp := bitLength_lt m.natAbs
    have hexp : bitLength m.natAbs = 53 + (bitLength m.natAbs - 53) := by omega
    generalize hs : bitLength m.natAbs - 53 = s at *
    have hq : m.natAbs / 2 ^ s < 2 ^ 53 := by
      rw [Nat.div_lt_iff_lt_mul (by positivity), ← pow_add, ← hexp]
      exact hupp
    generalize hq1 : (if 2 ^ (s - 1) < m.natAbs % 2 ^ s ∨
        (m.natAbs % 2 ^ s = 2 ^ (s - 1) ∧ m.natAbs / 2 ^ s % 2 = 1)
        then m.natAbs / 2 ^ s + 1 else m.natAbs / 2 ^ s) = q1
    have hq1le : q1 < 2 ^ 54 := by
      have h54 : (2 : Nat) ^ 54 = 2 * 2 ^ 53 := by norm_num
      rw [← hq1]
      split_ifs <;> omega
    have hb : bitLength q1 ≤ 54 := bitLength_le_of_lt q1 54 hq1le
    have hnat : (if m < 0 then -(q1 : Int) else (q1 : Int)).natAbs = q1 := by
      split_ifs <;> simp
    simp only [hnat]
    constructor <;> omega

theorem Double.isNormalOrZero_of_range (d : Double) (h1 : -1022 ≤ d.e)
    (h2 : (bitLength d.m.natAbs : Int) + d.e ≤ 1024) : d.isNormalOrZero = true := by
  unfold Double.isNormalOrZero
  by_cases hm : d.m = 0
  · simp [hm]
  · have hpos : 0 < bitLength d.m.natAbs :=
      lt_bitLength_of_le d.m.natAbs 0 (by
        have : d.m.natAbs ≠ 0 := Int.natAbs_ne_zero.mpr hm
        simp
        omega)
    have e1 : decide (-1022 ≤ (bitLength d.m.natAbs : Int) - 1 + d.e) = true := by
      rw [decide_eq_true_iff]
      omega
    have e2 : decide ((bitLength d.m.natAbs : Int) - 1 + d.e ≤ 1023) = true := by
      rw [decide_eq_true_iff]
      omega
    rw [e1, e2]
    simp

theorem truncateTowardZero_intCast (z : Int) : truncateTowardZero (z : ℚ) = z := by
  unfold truncateTowardZero
  split_ifs <;> simp

theorem truncateTowardZero_div (a : Int) (b : Nat) (hb : 0 < b) :
    truncateTowardZero ((a : ℚ) / (b : ℚ)) = Int.tdiv a b := by
  unfold truncateTowardZero
  have hbQ : (0 : ℚ) < b := by exact_mod_cast hb
  by_cases ha : 0 ≤ a
  · have h0 : (0 : ℚ) ≤ (a : ℚ) / b := div_nonneg (by exact_mod_cast ha) hbQ.le
    rw [if_pos h0, Rat.floor_intCast_div_natCast, Int.tdiv_eq_ediv ha (by omega)]
  · have hlt : (a : ℚ) / b < 0 :=
      div_neg_of_neg_of_pos (by exact_mod_cast (not_le.mp ha)) hbQ
    rw [if_neg (not_le.mpr hlt)]
    have h1 : ⌈(a : ℚ) / b⌉ = -⌊((-a : Int) : ℚ) / b⌋ := by
      have : ((-a : Int) : ℚ) / b = -((a : ℚ) / b) := by
        push_cast
        ring
      rw [this, Int.floor_neg, neg_neg]
    have h2 : a.tdiv b = -((-a).tdiv b) := by
      rw [Int.neg_tdiv, neg_neg]
    rw [h1, h2, Rat.floor_intCast_div_natCast, Int.tdiv_eq_ediv (by omega) (by omega)]

/-- The integral part computed on significand and exponent is the truncation
of the value. -/
theorem Double.trunc_eq (d : Double) : d.trunc = truncateTowardZero d.toRat := by
  unfold Double.trunc Double.toRat
  by_cases he : 0 ≤ d.e
  · rw [if_pos he]
    obtain ⟨j, hj⟩ := Int.eq_ofNat_of_zero_le he
    rw [hj, zpow_natCast, Int.toNat_ofNat]
    have : (d.m : ℚ) * (2 : ℚ) ^ j = ((d.m * 2 ^ j : Int) : ℚ) := by push_cast; ring
    rw [this, truncateTowardZero_intCast]
  · rw [if_neg he]
    obtain ⟨j, hj⟩ := Int.eq_ofNat_of_zero_le (show 0 ≤ -d.e by omega)
    have he2 : d.e = -(j : Int) := by omega
    rw [hj, he2, zpow_neg, zpow_natCast, Int.toNat_ofNat]
    have h1 : (d.m : ℚ) * ((2 : ℚ) ^ j)⁻¹ = (d.m : ℚ) / ((2 ^ j : Nat) : ℚ) := by
      push_cast
      ring
    have h2 : ((2 : Int) ^ j) = ((2 ^ j : Nat) : Int) := by push_cast; ring
    rw [h1, h2, truncateTowardZero_div _ _ (by positivity)]

/-- Two rationals strictly inside the same unit interval `(z, z + 1)` have
the same truncation. -/
theorem truncateTowardZero_eq_of_same_unit (v t : ℚ) (z : Int)
    (h1 : (z : ℚ) < v) (h2 : v < z + 1) (h3 : (z : ℚ) < t) (h4 : t < z + 1) :
    truncateTowardZero v = truncateTowardZero t := by
  unfold truncateTowardZero
  by_cases hz : 0 ≤ z
  · have hzQ : (0 : ℚ) ≤ z := by exact_mod_cast hz
    rw [if_pos (by linarith), if_pos (by linarith)]
    rw [Int.floor_eq_iff.mpr ⟨h1.le, h2⟩, Int.floor_eq_iff.mpr ⟨h3.le, h4⟩]
  · have hzQ : (z : ℚ) + 1 ≤ 0 := by exact_mod_cast (show z + 1 ≤ 0 by omega)
    rw [if_neg (by linarith), if_neg (by linarith)]
    have hv : ⌈v⌉ = z + 1 := Int.ceil_eq_iff.mpr ⟨by push_cast; linarith, by push_cast; linarith⟩
    have ht : ⌈t⌉ = z + 1 := Int.ceil_eq_iff.mpr ⟨by push_cast; linarith, by push_cast; linarith⟩
    rw [hv, ht]

/-- The significand and exponent of the constant `k`. -/
theorem k_eq : k = ⟨5805421393936704, -57⟩ := by decide!

/-- The exact product `(r - 112) * 40.28320312`, unless zero, is at least
`8 / 10 ^ 8` away from every integer: `4028320312 = 8 * 503540039` and
`503540039` is coprime to `10 ^ 8 / 8`. -/
theorem scaled_remainder_bounds (x : Int) (h1 : -112 ≤ x) (h2 : x ≤ 3983) (h0 : x ≠ 0) :
    8 ≤ (x * 4028320312) % 100000000 ∧ (x * 4028320312) % 100000000 ≤ 99999992 := by
  have hcop : IsCoprime (12500000 : Int) 503540039 := by
    rw [Int.isCoprime_iff_gcd_eq_one]
    norm_num
  have hnd : ¬ (12500000 : Int) ∣ x * 503540039 := by
    intro h
    have hx : (12500000 : Int) ∣ x := hcop.dvd_of_dvd_mul_right h
    have habs : |x| < 12500000 := by
      rw [abs_lt]
      constructor <;> linarith
    exact h0 (Int.eq_zero_of_abs_lt_dvd hx habs)
  have hsplit : (x * 4028320312) % 100000000 = 8 * ((x * 503540039) % 12500000) := by
    have e1 : x * 4028320312 = 8 * (x * 503540039) := by ring
    have e2 : (100000000 : Int) = 8 * 12500000 := by norm_num
    rw [e1, e2, Int.mul_emod_mul_of_pos _ _ (by norm_num)]
  have hnn : 0 ≤ (x * 503540039) % 12500000 := Int.emod_nonneg _ (by norm_num)
  have hlt : (x * 503540039) % 12500000 < 12500000 := Int.emod_lt_of_pos _ (by norm_num)
  have hne : (x * 503540039) % 12500000 ≠ 0 := fun h => hnd (Int.dvd_of_emod_eq_zero h)
  have hpos : 1 ≤ (x * 503540039) % 12500000 := by
    rcases hnn.lt_or_eq with h | h
    · exact h
    · exact absurd h.symm hne
  rw [hsplit]
  constructor <;> linarith

/-- A product of two doubles is the exact product within relative error
`2 ^ (-53)`. -/
theorem Double.mul_error (a b : Double) :
    |(Double.mul a b).toRat - a.toRat * b.toRat| ≤ |a.toRat * b.toRat| / 2 ^ 53 := by
  have h := roundNearestEven53_error (a.m * b.m) (a.e + b.e)
  have hP : (0 : ℚ) < (2 : ℚ) ^ (a.e + b.e) := by positivity
  have e1 : ((a.m * b.m : Int) : ℚ) * (2 : ℚ) ^ (a.e + b.e) = a.toRat * b.toRat := by
    unfold Double.toRat
    rw [zpow_add₀ (by norm_num : (2 : ℚ) ≠ 0)]
    push_cast
    ring
  have e2 : |((a.m * b.m : Int) : ℚ)| * (2 : ℚ) ^ (a.e + b.e) = |a.toRat * b.toRat| := by
    rw [← e1, abs_mul, abs_of_pos hP]
  rw [e1, e2] at h
  exact h

theorem Double.ofInt_exact (i : Int) (h : i.natAbs < 2 ^ 53) : (Double.ofInt i).toRat = i := by
  unfold Double.ofInt
  rw [roundNearestEven53_exact i 0 h]
  simp [Double.toRat]

theorem k_toRat : k.toRat = 5805421393936704 / 2 ^ 57 := by
  rw [k_eq]
  unfold Double.toRat
  norm_num [zpow_neg]

/-- The constant `k` is the binary64 value nearest to `0.04028320312`: a
53-bit significand, less than half a unit in the last place away. -/
theorem k_nearest :
    (2 : Int) ^ 52 ≤ k.m ∧ k.m < 2 ^ 53 ∧
      |k.toRat - 4028320312 / 10 ^ 11| < (2 : ℚ) ^ k.e / 2 := by
  rw [k_toRat, k_eq]
  refine ⟨by norm_num, by norm_num, ?_⟩
  rw [abs_lt]
  constructor <;> norm_num [zpow_neg]

/-- The integral part of the binary64 product is the truncation of the exact
decimal product: the two roundings and the rounding of `k` move the value by
less than `10 ^ (-9)`, which cannot cross an integer. -/
theorem current_product_trunc (r : Nat) (hr : r < 4096) :
    (current_product (r : Int)).trunc
      = truncateTowardZero (((r : ℚ) - 112) * (4028320312 / 10 ^ 11) * 1000) := by
  by_cases hx0 : r = 112
  · subst hx0
    have h1 : (current_product ((112 : Nat) : Int)).trunc = 0 := by decide!
    rw [h1]
    norm_num [truncateTowardZero]
  · rw [Double.trunc_eq]
    have hxl : -112 ≤ (r : Int) - 112 := by omega
    have hxu : (r : Int) - 112 ≤ 3983 := by omega
    have hxne : (r : Int) - 112 ≠ 0 := by omega
    obtain ⟨hρ1, hρ2⟩ := scaled_remainder_bounds _ hxl hxu hxne
    have hdm := Int.ediv_add_emod (((r : Int) - 112) * 4028320312) 100000000
    have hX : (Double.ofInt ((r : Int) - 112)).toRat = (r : ℚ) - 112 := by
      rw [Double.ofInt_exact _ (by norm_num; omega)]
      push_cast
      ring
    have hM : (Double.ofInt 1000).toRat = 1000 := by
      rw [Double.ofInt_exact _ (by norm_num)]
      norm_num
    have E1 := Double.mul_error (Double.ofInt ((r : Int) - 112)) k
    have E2 := Double.mul_error (Double.mul (Double.ofInt ((r : Int) - 112)) k) (Double.ofInt 1000)
    rw [hX, k_toRat] at E1
    rw [hM] at E2
    have hcp : current_product (r : Int)
        = Double.mul (Double.mul (Double.ofInt ((r : Int) - 112)) k) (Double.ofInt 1000) := rfl
    rw [hcp]
    generalize (Double.mul (Double.mul (Double.ofInt ((r : Int) - 112)) k)
      (Double.ofInt 1000)).toRat = v2 at *
    generalize (Double.mul (Double.ofInt ((r : Int) - 112)) k).toRat = v1 at *
    generalize hz : (((r : Int) - 112) * 4028320312) / 100000000 = z at hdm
    generalize hρ : (((r : Int) - 112) * 4028320312) % 100000000 = ρ at hdm hρ1 hρ2
    have hdmQ : (100000000 : ℚ) * z + ρ = ((r : ℚ) - 112) * 4028320312 := by
      exact_mod_cast hdm
    have hρ1Q : (8 : ℚ) ≤ ρ := by exact_mod_cast hρ1
    have hρ2Q : (ρ : ℚ) ≤ 99999992 := by exact_mod_cast hρ2
    have hrl : (0 : ℚ) ≤ r := Nat.cast_nonneg r
    have hru : (r : ℚ) ≤ 4095 := by exact_mod_cast (show r ≤ 4095 by omega)
    have B1 : |((r : ℚ) - 112) * (5805421393936704 / 2 ^ 57)| ≤ 161 := by
      rw [abs_le]
      constructor <;> linarith
    have E1' := abs_le.mp (E1.trans (div_le_div_of_nonneg_right B1 (by positivity)))
    have B2 : |v1 * 1000| ≤ 162000 := by
      rw [abs_le]
      have := abs_le.mp B1
      constructor <;> linarith [E1'.1, E1'.2, this.1, this.2]
    have E2' := abs_le.mp (E2.trans (div_le_div_of_nonneg_right B2 (by positivity)))
    apply truncateTowardZero_eq_of_same_unit _ _ z <;> linarith [E1'.1, E1'.2, E2'.1, E2'.2]

/-- The values of the current conversion stay inside the exponent range of
binary64 for every 12-bit raw code: the constant `k`, the two converted
integers, the first product and the final product. -/
theorem current_product_in_binary64_range (r : Nat) (hr : r < 4096) :
    k.isNormalOrZero = true ∧
    (Double.ofInt ((r : Int) - (current_sensor_zero_offset : Int))).isNormalOrZero = true ∧
    (Double.ofInt 1000).isNormalOrZero = true ∧
    (Double.mul (Double.ofInt ((r : Int) - (current_sensor_zero_offset : Int))) k).isNormalOrZero
      = true ∧
    (current_product (r : Int)).isNormalOrZero = true := by
  have hk : k.isNormalOrZero = true := by decide!
  have hx : ((r : Int) - (current_sensor_zero_offset : Int)).natAbs < 2 ^ 12 := by
    unfold current_sensor_zero_offset
    norm_num
    omega
  have hxl : bitLength ((r : Int) - (current_sensor_zero_offset : Int)).natAbs ≤ 12 :=
    bitLength_le_of_lt _ _ hx
  have hX : Double.ofInt ((r : Int) - (current_sensor_zero_offset : Int))
      = ⟨(r : Int) - (current_sensor_zero_offset : Int), 0⟩ :=
    roundNearestEven53_exact _ 0 (lt_of_lt_of_le hx (by norm_num))
  have hM : Double.ofInt 1000 = ⟨1000, 0⟩ := roundNearestEven53_exact _ 0 (by norm_num)
  have hMl : bitLength (1000 : Int).natAbs ≤ 10 := bitLength_le_of_lt _ _ (by norm_num)
  have hkl : bitLength (5805421393936704 : Int).natAbs ≤ 53 :=
    bitLength_le_of_lt _ _ (by norm_num)
  have hcp : current_product (r : Int)
      = Double.mul (Double.mul (Double.ofInt ((r : Int) - (current_sensor_zero_offset : Int))) k)
          (Double.ofInt 1000) := rfl
  rw [hcp, hX, hM, k_eq] at *
  have h1 := roundNearestEven53_range
    (((r : Int) - (current_sensor_zero_offset : Int)) * 5805421393936704) (0 + -57)
  have hl1 := bitLength_mul_le ((r : Int) - (current_sensor_zero_offset : Int)).natAbs
    (5805421393936704 : Int).natAbs
  rw [← Int.natAbs_mul] at hl1
  have hp1 : Double.mul ⟨(r : Int) - (current_sensor_zero_offset : Int), 0⟩
      ⟨5805421393936704, -57⟩
      = roundNearestEven53
          (((r : Int) - (current_sensor_zero_offset : Int)) * 5805421393936704) (0 + -57) := rfl
  rw [hp1]
  generalize roundNearestEven53
    (((r : Int) - (current_sensor_zero_offset : Int)) * 5805421393936704) (0 + -57) = p1 at *
  have h2 := roundNearestEven53_range (p1.m * 1000) (p1.e + 0)
  have hl2 := bitLength_mul_le p1.m.natAbs (1000 : Int).natAbs
  rw [← Int.natAbs_mul] at hl2
  have hp2 : Double.mul p1 ⟨1000, 0⟩ = roundNearestEven53 (p1.m * 1000) (p1.e + 0) := rfl
  rw [hp2]
  refine ⟨hk, ?_, ?_, ?_, ?_⟩
  · exact Double.isNormalOrZero_of_range _ (by simp) (by simp only []; omega)
  · exact Double.isNormalOrZero_of_range _ (by simp) (by simp only []; omega)
  · exact Double.isNormalOrZero_of_range _ (by omega) (by omega)
  · exact Double.isNormalOrZero_of_range _ (by omega) (by omega)

/-! ## Machine integer lemmas -/

theorem asSigned32_toUInt32 (i : Int) (h1 : -2 ^ 31 ≤ i) (h2 : i < 2 ^ 31) :
    asSigned32 (toUInt32 i) = i := by
  unfold asSigned32 toUInt32
  norm_num at h1 h2 ⊢
  split_ifs <;> omega

theorem asSigned32_of_lt (u : Nat) (h : u < 2 ^ 31) : asSigned32 u = (u : Int) := by
  unfold asSigned32
  norm_num at h ⊢
  split_ifs <;> omega

theorem asSigned32_range (u : Nat) : -2 ^ 31 ≤ asSigned32 u ∧ asSigned32 u < 2 ^ 31 := by
  unfold asSigned32
  norm_num
  split_ifs <;> omega

theorem truncateTowardZero_bounds (q : ℚ) (b : Int) (h1 : -(b : ℚ) ≤ q) (h2 : q ≤ b) :
    -b ≤ truncateTowardZero q ∧ truncateTowardZero q ≤ b := by
  unfold truncateTowardZero
  split_ifs with h
  · have hf : (⌊q⌋ : ℚ) ≤ q := Int.floor_le q
    have h0 : 0 ≤ ⌊q⌋ := Int.floor_nonneg.mpr h
    have hb : (⌊q⌋ : ℚ) ≤ b := hf.trans h2
    have hb1 : ⌊q⌋ ≤ b := by exact_mod_cast hb
    constructor <;> omega
  · have hc : q ≤ (⌈q⌉ : ℚ) := Int.le_ceil q
    have h0 : ⌈q⌉ ≤ 0 := Int.ceil_le.mpr (by push_cast; linarith)
    have hb : ((-b : Int) : ℚ) ≤ ⌈q⌉ := by
      push_cast
      linarith
    have hb1 : -b ≤ ⌈q⌉ := by exact_mod_cast hb
    constructor <;> omega

/-- The value stored in `ma`, read as an `int`. -/
theorem compute_ma_signed (r : Nat) (hr : r < 4096) :
    asSigned32 (compute_ma (r : Int))
      = truncateTowardZero (((r : ℚ) - 112) * (4028320312 / 10 ^ 11) * 1000) := by
  have ht := current_product_trunc r hr
  have hrl : (0 : ℚ) ≤ r := Nat.cast_nonneg r
  have hru : (r : ℚ) ≤ 4095 := by exact_mod_cast (show r ≤ 4095 by omega)
  have hb := truncateTowardZero_bounds (((r : ℚ) - 112) * (4028320312 / 10 ^ 11) * 1000) 200000
    (by push_cast; linarith) (by push_cast; linarith)
  rw [← ht] at hb
  have h1 : -2 ^ 31 ≤ (current_product (r : Int)).trunc := by
    have := hb.1
    norm_num
    linarith
  have h2 : (current_product (r : Int)).trunc < 2 ^ 31 := by
    have := hb.2
    norm_num
    linarith
  unfold compute_ma Double.toInt
  rw [asSigned32_toUInt32 _ h1 h2, asSigned32_toUInt32 _ h1 h2, ht]

/-! ## Formatting lemmas -/

/-- `%d` of a 32-bit argument prints at most 11 characters. -/
theorem fmt_d_length (arg : Nat) : (fmt_d arg).length ≤ 11 := by
  unfold fmt_d
  obtain ⟨h1, h2⟩ := asSigned32_range arg
  generalize asSigned32 arg = i at h1 h2
  cases i with
  | ofNat m =>
    have hm : m < 10 ^ 10 := by
      have : (m : Int) < 2 ^ 31 := h2
      norm_num at this ⊢
      omega
    have := Nat.repr_length m 10 (by norm_num) hm
    show (Nat.repr m).length ≤ 11
    omega
  | negSucc m =>
    have hm : m + 1 < 10 ^ 10 := by
      have : -2 ^ 31 ≤ Int.negSucc m := h1
      rw [Int.negSucc_eq] at this
      norm_num at this ⊢
      omega
    have := Nat.repr_length (m + 1) 10 (by norm_num) hm
    show ("-" ++ Nat.repr (m + 1)).length ≤ 11
    rw [String.length_append]
    have h1 : "-".length = 1 := rfl
    omega

theorem fmt_d_of_lt (u : Nat) (h : u < 2 ^ 31) : fmt_d u = (Nat.repr u).toList := by
  unfold fmt_d
  rw [asSigned32_of_lt u h]
  rfl

theorem fmt_d_toUInt32 (i : Int) (h1 : -2 ^ 31 ≤ i) (h2 : i < 2 ^ 31) :
    fmt_d (toUInt32 i) = (Int.repr i).toList := by
  unfold fmt_d
  rw [asSigned32_toUInt32 i h1 h2]

/-- The formatted body is at most 44 characters longer than `mac_str`. -/
theorem post_format_length (g : Globals) :
    (post_format g).length ≤ g.mac_str.length + 44 := by
  unfold post_format
  have h1 := fmt_d_length g.mv
  have h2 := fmt_d_length g.ma
  have e1 : ("\x7b\"mac\":\"".toList).length = 8 := by decide
  have e2 : ("\",\"mv\":".toList).length = 7 := by decide
  have e3 : (",\"ma\":".toList).length = 6 := by decide
  have e4 : ("\x7d".toList).length = 1 := by decide
  simp only [List.length_append, e1, e2, e3, e4]
  omega

/-- With `mac_str` of at most 83 characters `snprintf` cuts nothing. -/
theorem post_data_eq_format (g : Globals) (h : g.mac_str.length ≤ 83) :
    post_data g = post_format g := by
  unfold post_data snprintf
  apply List.take_of_length_le
  have := post_format_length g
  omega

/-- `%02X` of a byte is exactly two digits. -/
theorem fmt_02X_byte : ∀ b < 256, fmt_02X b = [hexDigitUpper (b / 16), hexDigitUpper (b % 16)] := by
  decide!

theorem parse_byte_digits : ∀ b < 256,
    parse_byte (hexDigitUpper (b / 16)) (hexDigitUpper (b % 16)) = some b := by
  decide!

theorem mac_format_eq (m : MacBytes) (h : m.valid) :
    mac_format m =
      [hexDigitUpper (m.b0 / 16), hexDigitUpper (m.b0 % 16), ':',
        hexDigitUpper (m.b1 / 16), hexDigitUpper (m.b1 % 16), ':',
        hexDigitUpper (m.b2 / 16), hexDigitUpper (m.b2 % 16), ':',
        hexDigitUpper (m.b3 / 16), hexDigitUpper (m.b3 % 16), ':',
        hexDigitUpper (m.b4 / 16), hexDigitUpper (m.b4 % 16), ':',
        hexDigitUpper (m.b5 / 16), hexDigitUpper (m.b5 % 16)] := by
  obtain ⟨h0, h1, h2, h3, h4, h5⟩ := h
  unfold mac_format
  rw [Nat.mod_eq_of_lt h0, Nat.mod_eq_of_lt h1, Nat.mod_eq_of_lt h2, Nat.mod_eq_of_lt h3,
    Nat.mod_eq_of_lt h4, Nat.mod_eq_of_lt h5, fmt_02X_byte _ h0, fmt_02X_byte _ h1,
    fmt_02X_byte _ h2, fmt_02X_byte _ h3, fmt_02X_byte _ h4, fmt_02X_byte _ h5]
  rfl

theorem get_mac_address_string (hw mac : MacBytes) (h : hw.valid) :
    (get_mac_address (some hw) mac).2 = mac_format hw := by
  unfold get_mac_address snprintf
  simp only []
  apply List.take_of_length_le
  rw [mac_format_eq hw h]
  simp

theorem parse_mac_format (m : MacBytes) (h : m.valid) : parse_mac (mac_format m) = some m := by
  rw [mac_format_eq m h]
  obtain ⟨h0, h1, h2, h3, h4, h5⟩ := h
  unfold parse_mac
  simp only [and_self, if_true, parse_byte_digits _ h0, parse_byte_digits _ h1,
    parse_byte_digits _ h2, parse_byte_digits _ h3, parse_byte_digits _ h4,
    parse_byte_digits _ h5]

/-! ## Loop lemmas -/

theorem read_adc_values_steps_ok (env : CycleEnv) (g : Globals) (h : env.readsSucceed) :
    ∃ g1, (read_adc_values env g).1 = some g1 ∧
      (read_adc_values env g).2.map Action.step
        = [Step.readVoltage, Step.readCurrent, Step.convert] := by
  obtain ⟨hv, hc⟩ := h
  obtain ⟨rv, hrv⟩ := Option.isSome_iff_exists.mp hv
  obtain ⟨rc, hrc⟩ := Option.isSome_iff_exists.mp hc
  unfold read_adc_values
  rw [hrv, hrc]
  exact ⟨_, rfl, rfl⟩

theorem read_adc_values_steps_fail (env : CycleEnv) (g : Globals) (h : ¬ env.readsSucceed) :
    (read_adc_values env g).1 = none ∧
      (read_adc_values env g).2.map Action.step = failedCycleSteps env := by
  unfold read_adc_values failedCycleSteps
  cases hv : env.voltage_read with
  | none => exact ⟨rfl, rfl⟩
  | some rv =>
    cases hc : env.current_read with
    | none => exact ⟨rfl, rfl⟩
    | some rc =>
      exfalso
      apply h
      unfold CycleEnv.readsSucceed
      rw [hv, hc]
      exact ⟨rfl, rfl⟩

theorem post_task_cons (env : CycleEnv) (envs : List CycleEnv) (g : Globals) :
    post_task (env :: envs) g =
      match read_adc_values env g with
      | (none, trace) => trace
      | (some g1, trace) =>
        trace ++ send_post_request env g1 ++ Action.vTaskDelay_ms 10000 :: post_task envs g1 :=
  rfl

theorem post_task_cons_ok (env : CycleEnv) (envs : List CycleEnv) (g : Globals)
    (h : env.readsSucceed) :
    ∃ g1, (post_task (env :: envs) g).map Action.step
      = cycleSteps ++ (post_task envs g1).map Action.step := by
  obtain ⟨g1, h1, h2⟩ := read_adc_values_steps_ok env g h
  refine ⟨g1, ?_⟩
  rw [post_task_cons]
  generalize read_adc_values env g = res at h1 h2
  obtain ⟨o, tr⟩ := res
  simp only at h1 h2
  subst h1
  simp only [List.map_append, List.map_cons, h2, send_post_request, List.map_nil]
  rfl

theorem post_task_cons_fail (env : CycleEnv) (envs : List CycleEnv) (g : Globals)
    (h : ¬ env.readsSucceed) :
    (post_task (env :: envs) g).map Action.step = failedCycleSteps env := by
  obtain ⟨h1, h2⟩ := read_adc_values_steps_fail env g h
  rw [post_task_cons]
  generalize read_adc_values env g = res at h1 h2
  obtain ⟨o, tr⟩ := res
  simp only at h1 h2
  subst h1
  exact h2

/-- After completed cycles the loop goes on with the remaining answers. -/
theorem post_task_steps_after_completed (pre : List CycleEnv) (h : ∀ env ∈ pre, env.readsSucceed) :
    ∀ (tail : List CycleEnv) (g : Globals), ∃ g1,
      (post_task (pre ++ tail) g).map Action.step
        = repeatedCycles pre.length ++ (post_task tail g1).map Action.step := by
  induction pre with
  | nil =>
    intro tail g
    exact ⟨g, rfl⟩
  | cons env pre ih =>
    intro tail g
    obtain ⟨g1, h1⟩ := post_task_cons_ok env (pre ++ tail) g (h env (List.mem_cons_self _ _))
    obtain ⟨g2, h2⟩ := ih (fun e he => h e (List.mem_cons_of_mem _ he)) tail g1
    refine ⟨g2, ?_⟩
    rw [List.cons_append, h1, h2]
    simp [repeatedCycles, List.append_assoc]

/-- After `xEventGroupSetBits` the awaited bit is set. -/
theorem connected_bit_set (bits : Nat) :
    (bits ||| WIFI_CONNECTED_BIT) &&& WIFI_CONNECTED_BIT = WIFI_CONNECTED_BIT := by
  unfold WIFI_CONNECTED_BIT BIT0
  rw [Nat.and_one_is_mod, Nat.or_mod_two_eq_one]
  exact Or.inr rfl

theorem handleEvent_start (ids : EventIds) (g : Globals) :
    handleEvent ids ConnEvent.start g
      = ({ g with s_wifi_event_group := some 0 }, [Action.esp_wifi_start]) :=
  rfl

theorem handleEvent_linkStarted (ids : EventIds) (g : Globals) :
    handleEvent ids ConnEvent.linkStarted g = (g, [Action.esp_wifi_connect]) := by
  simp [handleEvent, wifi_event_handler]

theorem handleEvent_linkLost (ids : EventIds) (g : Globals) :
    handleEvent ids ConnEvent.linkLost g = (g, [Action.esp_wifi_connect]) := by
  simp only [handleEvent, wifi_event_handler, true_and]
  split_ifs <;> rfl

theorem handleEvent_addressAcquired (ids : EventIds) (g : Globals) :
    handleEvent ids ConnEvent.addressAcquired g
      = ({ g with s_wifi_event_group :=
            g.s_wifi_event_group.map (fun bits => bits ||| WIFI_CONNECTED_BIT) },
          [Action.xEventGroupSetBits WIFI_CONNECTED_BIT]) := by
  simp [handleEvent, wifi_event_handler]

theorem compute_ma_at_0 : asSigned32 (compute_ma 0) = -4511 := by decide!

theorem compute_ma_at_112 : asSigned32 (compute_ma 112) = 0 := by decide!

theorem compute_ma_at_4095 : asSigned32 (compute_ma 4095) = 160447 := by decide!

/-! ## The claims -/

/-- Claim C1: for every raw current code `r` of the 12-bit range `0..4095`,
the `ma` that `read_adc_values` stores, read as a signed integer, is the
truncation toward zero of `(r - 112) * 0.04028320312 * 1000` with the
constant taken as the exact decimal `4028320312 / 10 ^ 11`; it is `-4511` for
`r = 0`, `0` for `r = 112` and `160447` for `r = 4095`. -/
theorem C1_milliamps_truncation (r : Nat) (hr : r < 4096) (raw_voltage : Int)
    (cali : Option Int) (err : esp_err_t) (g : Globals) :
    ∃ g1, (read_adc_values ⟨some raw_voltage, some (r : Int), cali, err⟩ g).1 = some g1 ∧
      asSigned32 g1.ma
        = truncateTowardZero (((r : ℚ) - 112) * (4028320312 / 10 ^ 11) * 1000) ∧
      (r = 0 → asSigned32 g1.ma = -4511) ∧
      (r = 112 → asSigned32 g1.ma = 0) ∧
      (r = 4095 → asSigned32 g1.ma = 160447) := by
  refine ⟨_, rfl, compute_ma_signed r hr, ?_, ?_, ?_⟩
  · intro h
    subst h
    dsimp only
    rw [Nat.cast_zero]
    exact compute_ma_at_0
  · intro h
    subst h
    dsimp only
    rw [Nat.cast_ofNat]
    exact compute_ma_at_112
  · intro h
    subst h
    dsimp only
    rw [Nat.cast_ofNat]
    exact compute_ma_at_4095

/-- The conversion at the raw code `0`: the stored value is `-4511`. -/
theorem C1_milliamps_truncation_witness :
    ∃ g1, (read_adc_values ⟨some 1000, some ((0 : Nat) : Int), none, esp_err_t.ESP_OK⟩
        Globals.init).1 = some g1 ∧ asSigned32 g1.ma = -4511 := by
  obtain ⟨g1, h1, _, h0, _⟩ :=
    C1_milliamps_truncation 0 (by decide) 1000 none esp_err_t.ESP_OK Globals.init
  exact ⟨g1, h1, h0 rfl⟩

/-- Claim C2, counterexample: with `mv = 2147483648`, a non-negative value of
the `uint32_t` cell, `%d` prints `-2147483648`, so the body is not the text
with `mv` in decimal. -/
theorem C2_counterexample_mv_printed_signed :
    post_data { Globals.init with
        mac_str := "AA:BB:CC:DD:EE:FF".toList, mv := 2147483648, ma := 0 }
      = "\x7b\"mac\":\"AA:BB:CC:DD:EE:FF\",\"mv\":-2147483648,\"ma\":0\x7d".toList ∧
    post_data { Globals.init with
        mac_str := "AA:BB:CC:DD:EE:FF".toList, mv := 2147483648, ma := 0 }
      ≠ "\x7b\"mac\":\"AA:BB:CC:DD:EE:FF\",\"mv\":2147483648,\"ma\":0\x7d".toList := by
  decide!

/-- Claim C2, as amended: for every identity string `id` that fits `mac_str`
(at most 17 characters), every millivolts value `mv` below `2 ^ 31` and every
signed 32-bit milliamps value `ma`, the body that `send_post_request` builds
and sends is exactly the text with the fields `mac`, `mv`, `ma` in this
order, `mv` in decimal and `ma` in signed decimal, sent with its full length;
for `AA:BB:CC:DD:EE:FF`, `3300`, `-10` it is the text of the specification. -/
theorem C2_post_body_exact (id : List Char) (mv : Nat) (ma : Int) (env : CycleEnv)
    (g : Globals) (hid : id.length ≤ 17) (hmv : mv < 2 ^ 31) (hma1 : -2 ^ 31 ≤ ma)
    (hma2 : ma < 2 ^ 31) :
    post_data { g with mac_str := id, mv := mv, ma := toUInt32 ma }
      = "\x7b\"mac\":\"".toList ++ id ++ "\",\"mv\":".toList ++ (Nat.repr mv).toList ++
          ",\"ma\":".toList ++ (Int.repr ma).toList ++ "\x7d".toList ∧
    send_post_request env { g with mac_str := id, mv := mv, ma := toUInt32 ma }
      = [Action.esp_http_client_perform
          ("\x7b\"mac\":\"".toList ++ id ++ "\",\"mv\":".toList ++ (Nat.repr mv).toList ++
            ",\"ma\":".toList ++ (Int.repr ma).toList ++ "\x7d".toList)
          ("\x7b\"mac\":\"".toList ++ id ++ "\",\"mv\":".toList ++ (Nat.repr mv).toList ++
            ",\"ma\":".toList ++ (Int.repr ma).toList ++ "\x7d".toList).length
          env.post_err] ∧
    (id = "AA:BB:CC:DD:EE:FF".toList → mv = 3300 → ma = -10 →
      post_data { g with mac_str := id, mv := mv, ma := toUInt32 ma }
        = "\x7b\"mac\":\"AA:BB:CC:DD:EE:FF\",\"mv\":3300,\"ma\":-10\x7d".toList) := by
  have hbody : post_data { g with mac_str := id, mv := mv, ma := toUInt32 ma }
      = "\x7b\"mac\":\"".toList ++ id ++ "\",\"mv\":".toList ++ (Nat.repr mv).toList ++
          ",\"ma\":".toList ++ (Int.repr ma).toList ++ "\x7d".toList := by
    rw [post_data_eq_format _ (show id.length ≤ 83 by omega)]
    unfold post_format
    simp only []
    rw [fmt_d_of_lt mv hmv, fmt_d_toUInt32 ma hma1 hma2]
  refine ⟨hbody, ?_, ?_⟩
  · unfold send_post_request
    rw [hbody]
  · intro h1 h2 h3
    rw [hbody, h1, h2, h3]
    decide!

/-- The body for `AA:BB:CC:DD:EE:FF`, `3300` and `-10`. -/
theorem C2_post_body_exact_witness :
    post_data { Globals.init with
        mac_str := "AA:BB:CC:DD:EE:FF".toList, mv := 3300, ma := toUInt32 (-10) }
      = "\x7b\"mac\":\"AA:BB:CC:DD:EE:FF\",\"mv\":3300,\"ma\":-10\x7d".toList :=
  (C2_post_body_exact "AA:BB:CC:DD:EE:FF".toList 3300 (-10)
    ⟨some 0, some 0, none, esp_err_t.ESP_OK⟩ Globals.init (by decide) (by norm_num)
    (by norm_num) (by norm_num)).2.2 rfl rfl rfl

/-- Claim C3, counterexample: a link-lost event after an address has been
acquired leaves `WIFI_CONNECTED_BIT` set; the state is `Connected`, not
`Connecting`, and the wait of `app_main` would return at once. -/
theorem C3_counterexample_link_lost_after_address :
    connectionState (handleEvents espIdfEventIds [ConnEvent.start, ConnEvent.linkStarted,
        ConnEvent.addressAcquired, ConnEvent.linkLost] Globals.init).1
      = ConnectionState.Connected ∧
    connectionState (handleEvents espIdfEventIds [ConnEvent.start, ConnEvent.linkStarted,
        ConnEvent.addressAcquired, ConnEvent.linkLost] Globals.init).1
      ≠ ConnectionState.Connecting ∧
    wait_returns (handleEvents espIdfEventIds [ConnEvent.start, ConnEvent.linkStarted,
        ConnEvent.addressAcquired, ConnEvent.linkLost] Globals.init).1 = true := by
  decide

/-- Claim C3, as amended: a link-lost event handled by `wifi_event_handler`
in any state issues exactly one reconnect attempt and changes no variable,
so the connectivity state stays what it was (`Connecting` before an address
has been acquired, `Connected` after); the sequence
`[start, linkStarted, linkLost, linkLost]` ends in `Connecting`, never in a
terminal or failed state, with one connect attempt per handled event. -/
theorem C3_link_lost_reconnects (ids : EventIds) (g : Globals) :
    (handleEvent ids ConnEvent.linkLost g).2 = [Action.esp_wifi_connect] ∧
    (handleEvent ids ConnEvent.linkLost g).1 = g ∧
    connectionState (handleEvent ids ConnEvent.linkLost g).1 = connectionState g ∧
    connectionState (handleEvents ids [ConnEvent.start, ConnEvent.linkStarted,
        ConnEvent.linkLost, ConnEvent.linkLost] g).1 = ConnectionState.Connecting ∧
    wait_returns (handleEvents ids [ConnEvent.start, ConnEvent.linkStarted,
        ConnEvent.linkLost, ConnEvent.linkLost] g).1 = false ∧
    (handleEvents ids [ConnEvent.start, ConnEvent.linkStarted,
        ConnEvent.linkLost, ConnEvent.linkLost] g).2
      = [Action.esp_wifi_start, Action.esp_wifi_connect, Action.esp_wifi_connect,
          Action.esp_wifi_connect] := by
  refine ⟨?_, ?_, ?_, ?_, ?_, ?_⟩ <;>
    simp only [handleEvents, handleEvent_start, handleEvent_linkStarted,
      handleEvent_linkLost] <;>
    rfl

/-- Claim C4: an address-acquired event handled by `wifi_event_handler` sets
`WIFI_CONNECTED_BIT`, so the state is `Connected` and the wait in `app_main`
returns, while `start` and link-started alone do not: the sequence
`[start, linkStarted, addressAcquired]` ends in `Connected`, the sequence
`[start, linkStarted]` ends in `Connecting` with the wait still blocked. -/
theorem C4_address_acquired_connects (ids : EventIds) (g : Globals) (bits : Nat) :
    connectionState (handleEvent ids ConnEvent.addressAcquired
        { g with s_wifi_event_group := some bits }).1 = ConnectionState.Connected ∧
    wait_returns (handleEvent ids ConnEvent.addressAcquired
        { g with s_wifi_event_group := some bits }).1 = true ∧
    connectionState (handleEvents ids [ConnEvent.start, ConnEvent.linkStarted,
        ConnEvent.addressAcquired] g).1 = ConnectionState.Connected ∧
    wait_returns (handleEvents ids [ConnEvent.start, ConnEvent.linkStarted,
        ConnEvent.addressAcquired] g).1 = true ∧
    connectionState (handleEvents ids [ConnEvent.start, ConnEvent.linkStarted] g).1
      = ConnectionState.Connecting ∧
    wait_returns (handleEvents ids [ConnEvent.start, ConnEvent.linkStarted] g).1 = false ∧
    wait_returns (handleEvent ids ConnEvent.start g).1 = false ∧
    (handleEvent ids ConnEvent.linkStarted g).1 = g := by
  have hb := connected_bit_set bits
  refine ⟨?_, ?_, ?_, ?_, ?_, ?_, ?_, ?_⟩
  · rw [handleEvent_addressAcquired]
    show (if (bits ||| WIFI_CONNECTED_BIT) &&& WIFI_CONNECTED_BIT = WIFI_CONNECTED_BIT
      then ConnectionState.Connected else ConnectionState.Connecting) = ConnectionState.Connected
    rw [if_pos hb]
  · rw [handleEvent_addressAcquired]
    show ((bits ||| WIFI_CONNECTED_BIT) &&& WIFI_CONNECTED_BIT == WIFI_CONNECTED_BIT) = true
    rw [hb]
    rfl
  all_goals
    simp only [handleEvents, handleEvent_start, handleEvent_linkStarted,
      handleEvent_addressAcquired] <;>
    rfl

/-- Claim C5, the code at the failing input: with the calibration reported
unsupported (`calibrate_adc` returns `false`), `read_adc_values` still calls
`adc_cali_raw_to_voltage` on the raw voltage code. -/
theorem C5_curve_path_invoked_without_calibration :
    (calibrate_adc esp_err_t.ESP_ERR_NOT_SUPPORTED Globals.init).1 = false ∧
    (calibrate_adc esp_err_t.ESP_ERR_NOT_SUPPORTED Globals.init).2.adc_cali_ready = false ∧
    (read_adc_values ⟨some 1000, some 112, none, esp_err_t.ESP_OK⟩
        (calibrate_adc esp_err_t.ESP_ERR_NOT_SUPPORTED Globals.init).2).2
      = [Action.adc_oneshot_read AdcChannel.VOLTAGE_SENSOR_ADC_CHANNEL,
          Action.adc_oneshot_read AdcChannel.CURRENT_SENSOR_ADC_CHANNEL,
          Action.adc_cali_raw_to_voltage 1000] := by
  decide

/-- Claim C6, counterexample: when the voltage read of the first of two
cycles fails, `post_task` aborts after that read; it does not sleep and the
second cycle never runs. -/
theorem C6_counterexample_read_failure_stops_loop :
    post_task [⟨none, some 112, some 3300, esp_err_t.ESP_OK⟩,
        ⟨some 2000, some 2000, some 3300, esp_err_t.ESP_OK⟩] Globals.init
      = [Action.adc_oneshot_read AdcChannel.VOLTAGE_SENSOR_ADC_CHANNEL, Action.abort] ∧
    Action.vTaskDelay_ms 10000 ∉
      post_task [⟨none, some 112, some 3300, esp_err_t.ESP_OK⟩,
        ⟨some 2000, some 2000, some 3300, esp_err_t.ESP_OK⟩] Globals.init := by
  decide

/-- Claim C6, as amended: when a raw sensor read fails in a cycle of
`post_task` (after any number of completed cycles), `ESP_ERROR_CHECK` aborts
the program: the trace is the completed cycles, then the reads up to the
failing one, then the abort; no POST is sent for that cycle, no value is
stored for it, and nothing runs afterwards (no sleep, no further cycle). -/
theorem C6_read_failure_aborts (pre : List CycleEnv) (env : CycleEnv) (rest : List CycleEnv)
    (g : Globals) (hpre : ∀ e ∈ pre, e.readsSucceed) (hfail : ¬ env.readsSucceed) :
    (post_task (pre ++ env :: rest) g).map Action.step
      = repeatedCycles pre.length ++ failedCycleSteps env ∧
    (∀ g1, (read_adc_values env g1).1 = none) := by
  obtain ⟨g1, h1⟩ := post_task_steps_after_completed pre hpre (env :: rest) g
  rw [h1, post_task_cons_fail env rest g1 hfail]
  exact ⟨rfl, fun g2 => (read_adc_values_steps_fail env g2 hfail).1⟩

/-- One completed cycle, then a cycle whose current read fails, then a cycle
that never runs. -/
theorem C6_read_failure_aborts_witness :
    (post_task ([⟨some 2000, some 2000, some 3300, esp_err_t.ESP_OK⟩] ++
        ⟨some 2000, none, some 3300, esp_err_t.ESP_OK⟩ ::
          [⟨some 1, some 1, some 1, esp_err_t.ESP_OK⟩]) Globals.init).map Action.step
      = [Step.readVoltage, Step.readCurrent, Step.convert, Step.post, Step.sleep 10000,
          Step.readVoltage, Step.readCurrent, Step.abort] :=
  (C6_read_failure_aborts [⟨some 2000, some 2000, some 3300, esp_err_t.ESP_OK⟩]
    ⟨some 2000, none, some 3300, esp_err_t.ESP_OK⟩ [⟨some 1, some 1, some 1, esp_err_t.ESP_OK⟩]
    Globals.init (by simp [CycleEnv.readsSucceed]) (by simp [CycleEnv.readsSucceed])).1

/-- Claim C7: for every number `n` of completed cycles (both raw reads
succeed) and every sequence of POST outcomes, the action trace of `post_task`
is exactly `n` repetitions of: read the voltage channel, read the current
channel, convert, one POST, sleep 10000 ms. -/
theorem C7_post_task_trace (envs : List CycleEnv) (g : Globals)
    (h : ∀ env ∈ envs, env.readsSucceed) :
    (post_task envs g).map Action.step = repeatedCycles envs.length := by
  obtain ⟨g1, h1⟩ := post_task_steps_after_completed envs h [] g
  rw [List.append_nil] at h1
  rw [h1]
  simp [post_task]

/-- Two cycles, the first POST failing: the trace is two full cycles. -/
theorem C7_post_task_trace_witness :
    (post_task [⟨some 2000, some 2000, some 3300, esp_err_t.ESP_FAIL⟩,
        ⟨some 2100, some 1900, none, esp_err_t.ESP_OK⟩] Globals.init).map Action.step
      = [Step.readVoltage, Step.readCurrent, Step.convert, Step.post, Step.sleep 10000,
          Step.readVoltage, Step.readCurrent, Step.convert, Step.post, Step.sleep 10000] :=
  C7_post_task_trace [⟨some 2000, some 2000, some 3300, esp_err_t.ESP_FAIL⟩,
    ⟨some 2100, some 1900, none, esp_err_t.ESP_OK⟩] Globals.init
    (by simp [CycleEnv.readsSucceed])

/-- Claim C8: for every 6-byte hardware address, the string `get_mac_address`
produces has exactly 17 characters (it fits `mac_str[18]` with its
terminator) and is the canonical form, the six bytes in order as two
uppercase hexadecimal digits each, joined by `:`; parsing it recovers the six
bytes, and distinct addresses give distinct strings. -/
theorem C8_mac_string_canonical (hw mac : MacBytes) (h : hw.valid) :
    (get_mac_address (some hw) mac).1 = hw ∧
    (get_mac_address (some hw) mac).2.length = 17 ∧
    (get_mac_address (some hw) mac).2 = canonical_mac hw ∧
    parse_mac (get_mac_address (some hw) mac).2 = some hw ∧
    (∀ hw1 : MacBytes, hw1.valid →
      (get_mac_address (some hw1) mac).2 = (get_mac_address (some hw) mac).2 → hw1 = hw) := by
  rw [get_mac_address_string hw mac h]
  refine ⟨rfl, ?_, ?_, parse_mac_format hw h, ?_⟩
  · rw [mac_format_eq hw h]
    rfl
  · rw [mac_format_eq hw h]
    rfl
  · intro hw1 h1 heq
    rw [get_mac_address_string hw1 mac h1] at heq
    have hp := parse_mac_format hw1 h1
    rw [heq, parse_mac_format hw h] at hp
    exact (Option.some.inj hp).symm

/-- The address `24:6F:28:0A:B1:C3`. -/
theorem C8_mac_string_canonical_witness :
    (get_mac_address (some ⟨36, 111, 40, 10, 177, 195⟩) ⟨0, 0, 0, 0, 0, 0⟩).2
      = "24:6F:28:0A:B1:C3".toList := by
  rw [(C8_mac_string_canonical ⟨36, 111, 40, 10, 177, 195⟩ ⟨0, 0, 0, 0, 0, 0⟩
    (by unfold MacBytes.valid; decide)).2.2.1]
  decide

/-- Claim C9: when reading the factory-programmed address fails and writes
nothing, `mac_str` is not left uninitialized: `app_main` has zeroed `mac`, so
the identity is the fixed string `00:00:00:00:00:00` on every such run. -/
theorem C9_identity_placeholder_on_failure (g : Globals) :
    (app_main_identity none g).mac_str = "00:00:00:00:00:00".toList := by
  show (get_mac_address none ⟨0, 0, 0, 0, 0, 0⟩).2 = "00:00:00:00:00:00".toList
  decide

/-- Claim C10: for every 17-character identity string and every pair of
32-bit values `mv` and `ma`, the formatted JSON body has at most 127
characters, so `post_data[128]` holds it whole and the length passed to the
HTTP client is the length of the complete body. -/
theorem C10_post_body_fits (g : Globals) (env : CycleEnv) (hid : g.mac_str.length = 17) :
    (post_format g).length ≤ 127 ∧
    post_data g = post_format g ∧
    send_post_request env g
      = [Action.esp_http_client_perform (post_format g) (post_format g).length
          env.post_err] := by
  have hlen := post_format_length g
  have heq := post_data_eq_format g (by omega)
  refine ⟨by omega, heq, ?_⟩
  unfold send_post_request
  rw [heq]

/-- The longest body: both values print as `-2147483648`. -/
theorem C10_post_body_fits_witness :
    (post_format { Globals.init with
        mac_str := "AA:BB:CC:DD:EE:FF".toList, mv := 2147483648, ma := 2147483648 }).length
      ≤ 127 :=
  (C10_post_body_fits { Globals.init with
      mac_str := "AA:BB:CC:DD:EE:FF".toList, mv := 2147483648, ma := 2147483648 }
    ⟨some 0, some 0, none, esp_err_t.ESP_OK⟩ (by decide)).1

end SolarMonitor
